import Mathlib

/-!
Verification development for the OpenSignals loading module
(`biosignalsnotebooks/load.py`): format detection, header parsing for the
text and hierarchical-binary (HDF5) formats, selection validation, and
channel-data extraction.

The Python module is shallowly embedded: Python's dynamically typed
`devices`/`channels` arguments become a `PyVal` type, Python dicts become
insertion-ordered association lists, Python exceptions become an explicit
`PyErr` error type threaded through `Except`.  File access is abstracted:
a `File` carries the already-deserialized structured content (the text
format's header literal and data matrix, the h5 container's groups);
line-reading and `ast.literal_eval` string deserialization are outside the
embedding.  Sample values are abstracted as integers: no claim involves
numeric parsing of cells.  Network download, sample-library archival and
the `get_header` output plumbing of `load` are not embedded (the spec
lists them as external collaborators / out of core scope).
-/

deriving instance DecidableEq for Except

namespace OpenSignals

/-- Python exception outcomes distinguished by the embedding.  Messages are
kept for `RuntimeError`/`RuntimeWarning` because the module signals distinct
conditions through distinct message strings (quote characters of the original
messages are dropped). -/
inductive PyErr where
  | runtimeError (msg : String)
  | runtimeWarning (msg : String)
  | typeError
  | indexError
  | keyError
  | attributeError
  | valueError
  | ioError
deriving DecidableEq

/-- Dynamically typed Python value, as far as the `devices` / `channels`
arguments of `load` need: `None`, `int`, `str` and `list`. -/
inductive PyVal where
  | none
  | int (i : Int)
  | str (s : String)
  | list (xs : List PyVal)

/-- Python runtime type tags, for `isinstance(x, type(y))` checks. -/
inductive PyType where
  | noneType
  | intType
  | strType
  | listType
deriving DecidableEq

/-- Embeds Python's `type(..)`. -/
def pyType : PyVal → PyType
  | .none => .noneType
  | .int _ => .intType
  | .str _ => .strType
  | .list _ => .listType

/-- Embeds Python's `isinstance(v, list)`. -/
def pyIsList : PyVal → Bool
  | .list _ => true
  | _ => false

/-- Embeds Python's `for x in v`: lists iterate their elements, strings
iterate their characters (as one-character strings); other values are not
iterable. -/
def pyIter : PyVal → Option (List PyVal)
  | .list xs => some xs
  | .str s => some (s.data.map (fun c => PyVal.str (String.mk [c])))
  | _ => Option.none

/-- Embeds Python's `v[i]` indexing for a natural index. -/
def pyIndex : PyVal → Nat → Except PyErr PyVal
  | .list xs, i =>
    match xs.get? i with
    | some v => .ok v
    | Option.none => .error .indexError
  | .str s, i =>
    match s.data.get? i with
    | some c => .ok (.str (String.mk [c]))
    | Option.none => .error .indexError
  | _, _ => .error .typeError

/-- Boolean list membership by decidable equality (Python's `in`). -/
def bmem {α : Type} [DecidableEq α] (a : α) : List α → Bool
  | [] => false
  | x :: rest => if x = a then true else bmem a rest

theorem bmem_iff {α : Type} [DecidableEq α] (a : α) (l : List α) :
    bmem a l = true ↔ a ∈ l := by
  induction l with
  | nil => simp [bmem]
  | cons x rest ih =>
    by_cases h : x = a
    · subst h; simp [bmem]
    · simp [bmem, h, ih, Ne.symm h]

/-- Embeds Python's `channel in int_list` membership test on a dynamic value:
only an `int` equal to a member succeeds; values of other types simply fail
the test (Python `in` on a list raises nothing). -/
def pyMemInt (v : PyVal) (xs : List Int) : Bool :=
  match v with
  | .int c => bmem c xs
  | _ => false

/-- Insertion-ordered dictionary update, Python semantics: an existing key
keeps its position and gets the new value, a fresh key is appended. -/
def dictInsert {α β : Type} [DecidableEq α] : List (α × β) → α → β → List (α × β)
  | [], k, v => [(k, v)]
  | (k', v') :: rest, k, v =>
    if k' = k then (k', v) :: rest else (k', v') :: dictInsert rest k v

/-- Dictionary lookup (first matching key). -/
def dictLookup {α β : Type} [DecidableEq α] : List (α × β) → α → Option β
  | [], _ => Option.none
  | (k', v') :: rest, k => if k' = k then some v' else dictLookup rest k

/-- Key list of an association-list dictionary (Python `dict.keys()`). -/
def dictKeys {α β : Type} (l : List (α × β)) : List α := l.map (fun p => p.1)

theorem dictLookup_insert_self {α β : Type} [DecidableEq α]
    (l : List (α × β)) (k : α) (v : β) :
    dictLookup (dictInsert l k v) k = some v := by
  induction l with
  | nil => simp [dictInsert, dictLookup]
  | cons p rest ih =>
    by_cases h : p.1 = k
    · simp [dictInsert, dictLookup, h]
    · simp [dictInsert, dictLookup, h, ih]

theorem dictLookup_insert_ne {α β : Type} [DecidableEq α]
    (l : List (α × β)) (k k' : α) (v : β) (h : k' ≠ k) :
    dictLookup (dictInsert l k v) k' = dictLookup l k' := by
  have hk : k ≠ k' := Ne.symm h
  induction l with
  | nil => simp [dictInsert, dictLookup, hk]
  | cons p rest ih =>
    by_cases hp : p.1 = k
    · subst hp
      simp [dictInsert, dictLookup, hk]
    · by_cases hp' : p.1 = k'
      · simp [dictInsert, dictLookup, hp, hp', hk, h]
      · simp [dictInsert, dictLookup, hp, hp', ih]

theorem dictLookup_isSome_iff_mem_keys {α β : Type} [DecidableEq α]
    (l : List (α × β)) (k : α) :
    (dictLookup l k).isSome = true ↔ k ∈ dictKeys l := by
  induction l with
  | nil => simp [dictLookup, dictKeys]
  | cons p rest ih =>
    by_cases h : p.1 = k
    · simp [dictLookup, dictKeys, h]
    · simp [dictLookup, dictKeys, h, ih, Ne.symm h]

/-! Format detection (`_file_type`). -/

/-- Extends the first piece of a split with a leading character. -/
def consHead (c : Char) : List (List Char) → List (List Char)
  | [] => [[c]]
  | h :: t => (c :: h) :: t

/-- Embeds Python's `str.split(sep)` for a one-character separator: all
pieces are kept, including empty ones. -/
def pySplit (sep : Char) : List Char → List (List Char)
  | [] => [[]]
  | c :: rest =>
    if c = sep then [] :: pySplit sep rest
    else consHead c (pySplit sep rest)

/-- Embeds Python's `lst[-1]` on the (never empty) result of a split. -/
def lastPiece : List (List Char) → List Char
  | [] => []
  | [x] => x
  | _ :: y :: rest => lastPiece (y :: rest)

/-- Embeds `_file_type`: a path containing a dot yields the substring after
the last dot; otherwise the subtype portion of the content-sniffed media
type (`magic.from_file(file, mime=True).split("/")[-1]`) is used.  The
sniffed media type is carried by the `File` value (see below); for a path
with a dot it is simply never consulted. -/
def file_type (path sniff : String) : String :=
  if '.' ∈ path.data then (lastPiece (pySplit '.' path.data)).asString
  else (lastPiece (pySplit '/' sniff.data)).asString

/-- File-type tags dispatched to the text-format reader. -/
def txtTags : List String := ["txt", "plain", "bat"]

/-- File-type tags dispatched to the hierarchical-binary (h5) reader. -/
def h5Tags : List String := ["h5", "x-hdf", "a"]

/-- File-type tags of the declared-unsupported clinical (edf) format. -/
def edfTags : List String := ["edf", "octet-stream"]

/-! Error message constants of the module (quote characters of the original
Python strings are dropped; everything else is verbatim). -/

def unsupportedFormatMsg : String :=
  "The type of the input file does not correspond to the predefined formats of OpenSignals"

def edfNotAvailableMsg : String :=
  "In the present package version loading data from .edf files is not available yet."

def shapeMsg : String :=
  "The shape of devices and channels lists are not the same. The number of sublists in the channels input may be equal to the number of devices specified in devices field."

def chnIntMsg : String :=
  "At least one of the channels elements is not an integer"

def devStrMsg : String :=
  "At least one of the devices elements is not a mac address string"

def dtypeMsg : String :=
  "The chosen data type of devices and channels fields is not supported."

def typePairMsg : String :=
  "The input devices and channels must be of the same type (None or list). When only one device is being used is also possible to specify None as device input and a list of integers in the channel field"

def chnAvailMsg : String :=
  "At least one of the specified channels is not available in the acquisition file."

def devAvailMsg : String :=
  "At least one of the specified devices is not available in the acquisition file."

/-! Data model: headers and files. -/

/-- The value stored under a channel key of `column labels`: the text parser
stores an absolute column index of the data matrix, the h5 parser stores a
synthesized dataset label string. -/
inductive Locator where
  | col (n : Nat)
  | label (s : String)
deriving DecidableEq

/-- Result of `numpy.loadtxt` as far as shape matters: a one-dimensional or
a two-dimensional array (`usecols` of length one, or a single data row,
squeezes the result to one dimension). -/
inductive NpArray where
  | vec (xs : List Int)
  | mat (xss : List (List Int))
deriving DecidableEq

/-- Raw per-device record of the text-format header literal, restricted to
the fields the parser logic reads.  The deserialized literal also carries
`special`, `position` and `mode` (deleted unread by the parser) and
passthrough metadata (`sampling rate`, `resolution`, `date`, ...) that no
claim consults; they are omitted from the embedding. -/
structure RawTxtDevice where
  channels : List Int
  label : List String
  column : List String
  sensor : List String
deriving DecidableEq

/-- Standardized per-device header produced by `read_header` (both
variants): the retained `channels` and `sensor` fields plus the
`column labels` mapping that absorbs the raw `column`/`label` fields. -/
structure StdDevice where
  channels : List Int
  sensor : List String
  columnLabels : List (Int × Locator)
deriving DecidableEq

/-- Standardized header: insertion-ordered mapping device id to its
standardized device record. -/
abbrev Header := List (String × StdDevice)

/-- A raw channel group of an h5 container: the `sensor` attribute and the
stored dataset, a list of rows (the OpenSignals layout stores each channel
as a two-dimensional n-by-1 dataset). -/
structure H5Channel where
  sensor : String
  dataset : List (List Int)
deriving DecidableEq

/-- A top-level device group of an h5 container: the `channels` attribute
and the nested `raw/channel_<id>` groups.  Volatile attributes (`duration`,
`mode`, `keywords`, `nsamples`, ...) are deleted-if-present by the parser
without being read; no claim consults them and they are omitted. -/
structure H5Group where
  channels : List Int
  raw : List (String × H5Channel)
deriving DecidableEq

/-- Structured content of an h5 container file. -/
structure H5File where
  groups : List (String × H5Group)
deriving DecidableEq

/-- Structured content of a text-format file: the deserialized header
literal of line index 1 (device id to raw record, in file order) and the
whole-file data matrix whose columns concatenate all devices column-wise.
Reading the second line and `ast.literal_eval` are abstracted: a file whose
header line is absent or malformed has no `TxtFile` content. -/
structure TxtFile where
  rawHeader : List (String × RawTxtDevice)
  dataMatrix : List (List Int)
deriving DecidableEq

/-- A file as the loader sees it: its path, its content-sniffed media type
(consulted only for extensionless paths) and its structured content under
each format's reader.  `txtContent = none` means the text reader fails on
it with an I/O or parse failure, likewise `h5Content`. -/
structure File where
  path : String
  sniff : String
  txtContent : Option TxtFile
  h5Content : Option H5File

/-- Extracted loaded channel data of one device: channel key `"CH<id>"` to
sample array. -/
abbrev ChannelData := List (String × NpArray)

/-- Loaded dataset: device id to its channel data. -/
abbrev Dataset := List (String × ChannelData)

/-! Header parsing (`read_header`). -/

/-- Embeds `numpy.where(numpy.array(column) == chn_label)[0][0]`: index of
the first occurrence of the label, none (an `IndexError` on the empty
`where` result) when the label does not occur. -/
def npWhereFirst (lbl : String) : List String → Option Nat
  | [] => Option.none
  | s :: rest =>
    if s = lbl then some 0 else (npWhereFirst lbl rest).map (fun j => j + 1)

/-- The inner loop of the text-header standardization: for each channel (in
order, with its enumeration index), look up the channel's label in the raw
`label` list, find that label's first position in the raw `column` list and
record `col_nbr + position` under the channel id.  A missing label entry or
an absent label are the Python `IndexError`s of the original. -/
def buildCLAux (colNbr : Nat) (d : RawTxtDevice) :
    List Int → Nat → List (Int × Locator) → Except PyErr (List (Int × Locator))
  | [], _, acc => .ok acc
  | chn :: rest, idx, acc =>
    match d.label.get? idx with
    | Option.none => .error .indexError
    | some lbl =>
      match npWhereFirst lbl d.column with
      | Option.none => .error .indexError
      | some j => buildCLAux colNbr d rest (idx + 1) (dictInsert acc chn (.col (colNbr + j)))

/-- Standardization of one text-format device at running column offset
`colNbr`: keeps `channels` and `sensor`, absorbs `column`/`label` into
`column labels`. -/
def stdTextDevice (colNbr : Nat) (d : RawTxtDevice) : Except PyErr StdDevice :=
  match buildCLAux colNbr d d.channels 0 [] with
  | .error e => .error e
  | .ok cl => .ok ⟨d.channels, d.sensor, cl⟩

/-- The text-header loop over devices in file order, carrying the running
column counter `col_nbr` that accumulates each processed device's raw
column width. -/
def stdTextHeaderAux (colNbr : Nat) :
    List (String × RawTxtDevice) → Except PyErr Header
  | [] => .ok []
  | (mac, d) :: rest =>
    match stdTextDevice colNbr d with
    | .error e => .error e
    | .ok sd =>
      match stdTextHeaderAux (colNbr + d.column.length) rest with
      | .error e => .error e
      | .ok h => .ok ((mac, sd) :: h)

/-- The inner loop of the h5-header standardization: for each channel id,
map it to the synthesized label `"channel_<id>"` and rebuild the sensor
list from the nested raw channel group's `sensor` attribute (a missing
nested group is the `AttributeError` of `None.attrs` in the original). -/
def stdH5Aux (g : H5Group) :
    List Int → List (Int × Locator) → List String →
    Except PyErr (List (Int × Locator) × List String)
  | [], cl, sens => .ok (cl, sens)
  | chn :: rest, cl, sens =>
    match dictLookup g.raw ("channel_" ++ toString chn) with
    | Option.none => .error .attributeError
    | some ch =>
      stdH5Aux g rest (dictInsert cl chn (.label ("channel_" ++ toString chn)))
        (sens ++ [ch.sensor])

/-- Standardization of one h5 device group. -/
def stdH5Device (g : H5Group) : Except PyErr StdDevice :=
  match stdH5Aux g g.channels [] [] with
  | .error e => .error e
  | .ok p => .ok ⟨g.channels, p.2, p.1⟩

/-- The h5-header loop over the container's top-level device groups. -/
def stdH5Header : List (String × H5Group) → Except PyErr Header
  | [] => .ok []
  | (mac, g) :: rest =>
    match stdH5Device g with
    | .error e => .error e
    | .ok sd =>
      match stdH5Header rest with
      | .error e => .error e
      | .ok h => .ok ((mac, sd) :: h)

/-- Embeds `read_header`: dispatch on the detected file type.  The clinical
(edf) branch of the original is commented out, so edf-tagged files fall
through, like every unrecognized tag, to the generic unsupported-format
`RuntimeError`. -/
def read_header (f : File) : Except PyErr Header :=
  let ft := file_type f.path f.sniff
  if bmem ft txtTags then
    match f.txtContent with
    | some t => stdTextHeaderAux 0 t.rawHeader
    | Option.none => .error .ioError
  else if bmem ft h5Tags then
    match f.h5Content with
    | some h => stdH5Header h.groups
    | Option.none => .error .ioError
  else .error (.runtimeError unsupportedFormatMsg)

/-! Selection validation (`_check_shape_and_type`, `_check_dev_type`,
`_available_channels`, `_check_chn_type`). -/

/-- Embeds Python's `isinstance(v, int)`. -/
def pyIsInt : PyVal → Bool
  | .int _ => true
  | _ => false

/-- Modelled from the spec: `_is_instance(int, channels, condition="all")`
comes from `aux_functions.py`, which is not under the sources; per the
spec's valid shape family (a) — devices unset, channels "a flat sequence of
integers only, no nested sequences" — it accepts exactly a list all of
whose elements are integers. -/
def isInstanceAllInt : PyVal → Bool
  | .list xs => xs.all pyIsInt
  | _ => false

/-- The per-device inner loop of `_check_shape_and_type`: each device must
be a string, and each entry of `channels[dev_nbr]` an integer.  The first
offending element raises; a non-iterable `channels[dev_nbr]` is the
`TypeError` of the original's `for channel in channels[dev_nbr]`. -/
def checkDevsLoop (cs : List PyVal) : List PyVal → Nat → Except PyErr Unit
  | [], _ => .ok ()
  | v :: rest, i =>
    match v with
    | .str _ =>
      match cs.get? i with
      | Option.none => .error .indexError
      | some su =>
        match pyIter su with
        | Option.none => .error .typeError
        | some elems =>
          if elems.all pyIsInt then checkDevsLoop cs rest (i + 1)
          else .error (.runtimeError chnIntMsg)
    | _ => .error (.runtimeError devStrMsg)

/-- Embeds `_check_shape_and_type`.  The original branches first on
`isinstance(devices, type(channels))`; the embedding flattens the same
decision table over the type pairs: equal-typed `None`/`None` passes,
equal-typed lists go through the shape comparison — which compares
`len(devices)` with `sum(isinstance(i, list) for i in channels)`, the
count of list-typed elements of `channels` — other equal-typed pairs are
the unsupported-data-type error, `None` devices with non-`None` channels
accept a flat all-integer list, and every remaining pair is the
type-mismatch error. -/
def check_shape_and_type (devices channels : PyVal) : Except PyErr Unit :=
  match devices, channels with
  | .none, .none => .ok ()
  | .list ds, .list cs =>
    if ds.length = cs.countP pyIsList then checkDevsLoop cs ds 0
    else .error (.runtimeError shapeMsg)
  | .int _, .int _ => .error (.runtimeError dtypeMsg)
  | .str _, .str _ => .error (.runtimeError dtypeMsg)
  | .none, c => if isInstanceAllInt c then .ok () else .error (.runtimeError typePairMsg)
  | _, _ => .error (.runtimeError typePairMsg)

/-- The loop of `_check_dev_type` over a requested device list: Python's
`device in dev_list` membership succeeds only for a string present in the
available list, so any other element raises the device-availability error. -/
def devLoop (dev_list : List String) : List PyVal → Except PyErr (List String)
  | [] => .ok []
  | v :: rest =>
    match v with
    | .str s =>
      if bmem s dev_list then
        match devLoop dev_list rest with
        | .error e => .error e
        | .ok out => .ok (s :: out)
      else .error (.runtimeError devAvailMsg)
    | _ => .error (.runtimeError devAvailMsg)

/-- Embeds `_check_dev_type`: `None` selects the whole available device
list, a list is validated element-wise and returned.  Through `load` the
`devices` value here is always `None` or a list; other iterables are
modeled as a `TypeError`. -/
def check_dev_type (devices : PyVal) (dev_list : List String) : Except PyErr (List String) :=
  match devices with
  | .none => .ok dev_list
  | .list vs => devLoop dev_list vs
  | _ => .error .typeError

/-- The loop of `_available_channels`: each requested device's available
channel set is the key view of its `column labels` mapping; the dictionary
is built with Python update semantics (a repeated device id keeps one
entry).  A device id absent from the header is the original's `KeyError`;
through `load` this point is only reached after `_check_dev_type`, so the
elements are strings present in the header. -/
def availLoop (header : Header) :
    List PyVal → List (String × List Int) → Except PyErr (List (String × List Int))
  | [], acc => .ok acc
  | v :: rest, acc =>
    match v with
    | .str s =>
      match dictLookup header s with
      | some dev => availLoop header rest (dictInsert acc s (dictKeys dev.columnLabels))
      | Option.none => .error .keyError
    | _ => .error .keyError

/-- Embeds `_available_channels`. -/
def available_channels (devices : PyVal) (header : Header) :
    Except PyErr (List (String × List Int)) :=
  match devices with
  | .list vs => availLoop header vs []
  | _ => .error .typeError

/-- Projects a validated dynamic channel entry to its integer. -/
def toIntOpt : PyVal → Option Int
  | .int c => some c
  | _ => Option.none

/-- Embeds Python's `v is None`. -/
def pyIsNone : PyVal → Bool
  | .none => true
  | _ => false

/-- The loop of `_check_chn_type` over the available-channel dictionary in
key order: omitted channels select each device's full available list,
otherwise `channels[dev_nbr]` is indexed (the out-of-range `IndexError` of
the original when `channels` is too short), iterated, and every element
must pass the integer-membership test against that device's available
set. -/
def chnLoop (channels : PyVal) : List (String × List Int) → Nat → Except PyErr (List (List Int))
  | [], _ => .ok []
  | (_, av) :: rest, i =>
    if pyIsNone channels then
      match chnLoop channels rest (i + 1) with
      | .error e => .error e
      | .ok r => .ok (av :: r)
    else
      match pyIndex channels i with
      | .error e => .error e
      | .ok su =>
        match pyIter su with
        | Option.none => .error .typeError
        | some elems =>
          if elems.all (fun v => pyMemInt v av) then
            match chnLoop channels rest (i + 1) with
            | .error e => .error e
            | .ok r => .ok (elems.filterMap toIntOpt :: r)
          else .error (.runtimeError chnAvailMsg)

/-- Embeds `_check_chn_type`: returns the standardized per-device channel
lists. -/
def check_chn_type (channels : PyVal) (available : List (String × List Int)) :
    Except PyErr (List (List Int)) :=
  chnLoop channels available 0

/-! Data extraction (`_load_txt`, `_load_h5`). -/

/-- Channel key `"CH" + str(chn)` of the output dataset. -/
def chKey (chn : Int) : String := "CH" ++ toString chn

/-- Embeds `numpy.loadtxt(fname=file, usecols=columns)` over the whole-file
data matrix: the requested columns are extracted row-wise in `usecols`
order; a column index beyond a row's width is the original's parse
failure.  With a single requested column, or a single data row, the
default `ndmin=0` squeezes the result to one dimension (a one-by-one
result is modeled as a one-element vector). -/
def npLoadtxt (matrix : List (List Int)) (cols : List Nat) : Except PyErr NpArray :=
  if matrix.all (fun row => cols.all (fun c => c < row.length)) then
    let sel := matrix.map (fun row => cols.map (fun c => row.getD c 0))
    if cols.length = 1 then .ok (.vec (sel.map (fun r => r.getD 0 0)))
    else if matrix.length = 1 then .ok (.vec (sel.getD 0 []))
    else .ok (.mat sel)
  else .error .valueError

/-- The channel loop of `_load_txt` for one device: each channel's column
index is appended to the running `columns` list and the matrix is read with
`usecols=columns` — the accumulated list, not the single column.  A channel
id missing from `column labels` is the original's `KeyError`; a label-typed
locator cannot arise through `load`'s text dispatch and stands for the
`TypeError` a string in `usecols` would raise. -/
def loadTxtChans (matrix : List (List Int)) (header : Header) (device : String) :
    List Int → List Nat → ChannelData → Except PyErr ChannelData
  | [], _, acc => .ok acc
  | chn :: rest, columns, acc =>
    match dictLookup header device with
    | Option.none => .error .keyError
    | some dev =>
      match dictLookup dev.columnLabels chn with
      | Option.none => .error .keyError
      | some (.label _) => .error .typeError
      | some (.col c) =>
        match npLoadtxt matrix (columns ++ [c]) with
        | .error e => .error e
        | .ok arr =>
          loadTxtChans matrix header device rest (columns ++ [c])
            (dictInsert acc (chKey chn) arr)

/-- The device loop of `_load_txt`: devices are enumerated and
`channels[dev_nbr]` indexed positionally (out of range is an
`IndexError`). -/
def loadTxtDevs (matrix : List (List Int)) (header : Header) :
    List String → List (List Int) → Dataset → Except PyErr Dataset
  | [], _, acc => .ok acc
  | device :: restD, chansList, acc =>
    match chansList with
    | [] => .error .indexError
    | chans :: restC =>
      match loadTxtChans matrix header device chans [] [] with
      | .error e => .error e
      | .ok chd => loadTxtDevs matrix header restD restC (dictInsert acc device chd)

/-- Embeds `_load_txt` (keyword filtering of `**kwargs` is not embedded;
no claim passes keywords). -/
def load_txt (matrix : List (List Int)) (devices : List String)
    (channels : List (List Int)) (header : Header) : Except PyErr Dataset :=
  loadTxtDevs matrix header devices channels []

/-- Embeds `numpy.concatenate(data_temp)` on the list of rows of a stored
channel dataset: concatenation along the first axis flattens the rows; on
an empty list `numpy.concatenate` raises `ValueError` ("need at least one
array to concatenate"). -/
def npConcatenate (blocks : List (List Int)) : Except PyErr (List Int) :=
  match blocks with
  | [] => .error .valueError
  | _ => .ok blocks.flatten

/-- The naive nested row/element iteration that the original's comment
(lines 492-496 of the module) declares equivalent to the concatenation:
`for sublist in h5_data: for item in sublist: flat_list.append(item)`. -/
def naiveFlatten (blocks : List (List Int)) : List Int :=
  blocks.foldl (fun acc sub => sub.foldl (fun a x => a ++ [x]) acc) []

/-- The channel loop of `_load_h5` for one device: the nested
`raw/channel_<id>` dataset is located directly from the channel id (not
through `column labels`), read as its list of rows and flattened by
concatenation.  A missing device group is the `AttributeError` of
`None.get`, a missing channel group the `TypeError` of `list(None)`. -/
def loadH5Chans (h : H5File) (device : String) :
    List Int → ChannelData → Except PyErr ChannelData
  | [], acc => .ok acc
  | chn :: rest, acc =>
    match dictLookup h.groups device with
    | Option.none => .error .attributeError
    | some g =>
      match dictLookup g.raw ("channel_" ++ toString chn) with
      | Option.none => .error .typeError
      | some ch =>
        match npConcatenate ch.dataset with
        | .error e => .error e
        | .ok flat => loadH5Chans h device rest (dictInsert acc (chKey chn) (.vec flat))

/-- The device loop of `_load_h5`. -/
def loadH5Devs (h : H5File) :
    List String → List (List Int) → Dataset → Except PyErr Dataset
  | [], _, acc => .ok acc
  | device :: restD, chansList, acc =>
    match chansList with
    | [] => .error .indexError
    | chans :: restC =>
      match loadH5Chans h device chans [] with
      | .error e => .error e
      | .ok chd => loadH5Devs h restD restC (dictInsert acc device chd)

/-- Embeds `_load_h5`. -/
def load_h5 (h : H5File) (devices : List String) (channels : List (List Int)) :
    Except PyErr Dataset :=
  loadH5Devs h devices channels []

/-! The load orchestrator. -/

/-- Embeds `load` (the data path: remote download, the sample-library
archival block and the `get_header` output tuple are outside the core, per
the spec's scope).  Stage order follows the original: file-type detection,
shape/type check, header read, `None`-selection expansion — omitted devices
select the whole discovered list and wrap a given flat channel list in a
singleton list — device check, available-channel resolution, channel check,
and format dispatch.  Result `none` (Python's `data = None`) is returned
only on the final unmatched-tag fallthrough, which `read_header`'s failure
makes unreachable. -/
def load (f : File) (channels devices : PyVal) : Except PyErr (Option Dataset) :=
  let ft := file_type f.path f.sniff
  match check_shape_and_type devices channels with
  | .error e => .error e
  | .ok _ =>
    match read_header f with
    | .error e => .error e
    | .ok header =>
      let dev_list := dictKeys header
      let devices2 : PyVal :=
        match devices with
        | .none => .list (dev_list.map PyVal.str)
        | d => d
      let channels2 : PyVal :=
        match devices with
        | .none =>
          match channels with
          | .none => .none
          | c => .list [c]
        | _ => channels
      match check_dev_type devices2 dev_list with
      | .error e => .error e
      | .ok dev_std =>
        match available_channels devices2 header with
        | .error e => .error e
        | .ok chn_dict =>
          match check_chn_type channels2 chn_dict with
          | .error e => .error e
          | .ok chn_std =>
            if bmem ft txtTags then
              match f.txtContent with
              | some t =>
                match load_txt t.dataMatrix dev_std chn_std header with
                | .error e => .error e
                | .ok d => .ok (some d)
              | Option.none => .error .ioError
            else if bmem ft h5Tags then
              match f.h5Content with
              | some h =>
                match load_h5 h dev_std chn_std with
                | .error e => .error e
                | .ok d => .ok (some d)
              | Option.none => .error .ioError
            else if bmem ft edfTags then .error (.runtimeWarning edfNotAvailableMsg)
            else .ok Option.none

/-! Small helpers for theorem statements. -/

/-- Success test of an `Except` outcome. -/
def exceptIsOk {ε α : Type} : Except ε α → Bool
  | .ok _ => true
  | .error _ => false

/-- Success projection of an `Except` outcome. -/
def exceptToOption {ε α : Type} : Except ε α → Option α
  | .ok a => some a
  | .error _ => Option.none

/-- Specification shorthand: the column indices that `column labels`
resolution assigns to a channel list of one device, with the failure modes
of the extractor's per-channel lookups. -/
def resolveCols (header : Header) (device : String) : List Int → Except PyErr (List Nat)
  | [] => .ok []
  | chn :: rest =>
    match dictLookup header device with
    | Option.none => .error .keyError
    | some dev =>
      match dictLookup dev.columnLabels chn with
      | Option.none => .error .keyError
      | some (.label _) => .error .typeError
      | some (.col c) =>
        match resolveCols header device rest with
        | .error e => .error e
        | .ok cs => .ok (c :: cs)

/-- Specification shorthand: total raw column width of the first `i`
devices of a text-format header literal. -/
def offsetSum (raws : List (String × RawTxtDevice)) (i : Nat) : Nat :=
  ((raws.take i).map (fun p => p.2.column.length)).sum

/-- Specification shorthand: the full discovered per-device channel lists
of a parsed header (the key views of `column labels`, in header order). -/
def fullChannels (hdr : Header) : List (List Int) :=
  hdr.map (fun p => dictKeys p.2.columnLabels)

/-! Concrete example files used by witnesses and counterexamples. -/

/-- First device of the text example: two channels whose labels sit at
columns 2 and 3 of the device's raw column list. -/
def txtRawAA : RawTxtDevice :=
  ⟨[1, 2], ["ECGlbl", "EDAlbl"], ["nSeq", "DI", "ECGlbl", "EDAlbl"], ["ECG", "EDA"]⟩

/-- Second device of the text example: one channel, behind a four-column
first device, so its absolute column index is 4 + 1. -/
def txtRawCC : RawTxtDevice :=
  ⟨[1], ["EMGlbl"], ["nSeq", "EMGlbl"], ["EMG"]⟩

/-- Two data rows, six columns: the two devices' blocks concatenated
column-wise. -/
def txtMatrix : List (List Int) :=
  [[0, 0, 10, 100, 7, 1000], [1, 0, 20, 200, 8, 2000]]

/-- A valid two-device text-format file. -/
def txtExampleFile : File :=
  ⟨"sample.txt", "text/plain", some ⟨[("AA:BB", txtRawAA), ("CC:DD", txtRawCC)], txtMatrix⟩,
    Option.none⟩

/-- The standardized header of `txtExampleFile`'s first device. -/
def txtStdAA : StdDevice := ⟨[1, 2], ["ECG", "EDA"], [(1, .col 2), (2, .col 3)]⟩

/-- The standardized header of `txtExampleFile`'s second device. -/
def txtStdCC : StdDevice := ⟨[1], ["EMG"], [(1, .col 5)]⟩

/-- The parsed header of `txtExampleFile`. -/
def txtHdr : Header := [("AA:BB", txtStdAA), ("CC:DD", txtStdCC)]

/-- A valid one-device h5 container with two channels. -/
def h5ExampleFile : File :=
  ⟨"sample.h5", "application/x-hdf", Option.none,
    some ⟨[("AA:BB", ⟨[1, 2],
      [("channel_1", ⟨"ECG", [[10], [20]]⟩), ("channel_2", ⟨"EDA", [[3], [4]]⟩)]⟩)]⟩⟩

/-- An h5 container whose single channel stores an empty dataset (zero
sample rows). -/
def h5EmptyFile : H5File := ⟨[("AA:BB", ⟨[1], [("channel_1", ⟨"ECG", []⟩)]⟩)]⟩

/-- A file carrying the clinical-format extension. -/
def edfExampleFile : File :=
  ⟨"sample.edf", "application/octet-stream", Option.none, Option.none⟩

/-! Lemmas about the split used by the format detector. -/

theorem consHead_ne_nil (c : Char) (L : List (List Char)) : consHead c L ≠ [] := by
  cases L <;> simp [consHead]

theorem pySplit_ne_nil (sep : Char) (s : List Char) : pySplit sep s ≠ [] := by
  induction s with
  | nil => simp [pySplit]
  | cons c rest ih =>
    by_cases hc : c = sep
    · simp [pySplit, hc]
    · simp only [pySplit, hc, if_false]
      exact consHead_ne_nil c _

theorem lastPiece_cons (x : List Char) (L : List (List Char)) (h : L ≠ []) :
    lastPiece (x :: L) = lastPiece L := by
  cases L with
  | nil => exact absurd rfl h
  | cons y rest => rfl

theorem pySplit_no_sep (sep : Char) (s : List Char) (h : sep ∉ s) :
    pySplit sep s = [s] := by
  induction s with
  | nil => simp [pySplit]
  | cons c rest ih =>
    have hc : c ≠ sep := fun hh => h (hh ▸ List.mem_cons_self c rest)
    have hr : sep ∉ rest := fun hh => h (List.mem_cons_of_mem c hh)
    simp [pySplit, ih hr, hc, consHead]

theorem consHead_length (c : Char) (L : List (List Char)) (h : L ≠ []) :
    (consHead c L).length = L.length := by
  cases L with
  | nil => exact absurd rfl h
  | cons y rest => simp [consHead]

theorem pySplit_length_two (sep : Char) (s : List Char) (h : sep ∈ s) :
    2 ≤ (pySplit sep s).length := by
  induction s with
  | nil => simp at h
  | cons c rest ih =>
    by_cases hc : c = sep
    · subst hc
      have h1 : 1 ≤ (pySplit c rest).length :=
        List.length_pos.mpr (pySplit_ne_nil c rest)
      have hstep : pySplit c (c :: rest) = [] :: pySplit c rest := by
        simp [pySplit]
      rw [hstep, List.length_cons]
      omega
    · have hr : sep ∈ rest := by
        rcases List.mem_cons.mp h with h1 | h2
        · exact absurd h1.symm hc
        · exact h2
      have := ih hr
      simp only [pySplit, hc, if_false]
      rw [consHead_length c _ (pySplit_ne_nil sep rest)]
      exact this

theorem lastPiece_consHead (c : Char) (L : List (List Char)) (h : 2 ≤ L.length) :
    lastPiece (consHead c L) = lastPiece L := by
  cases L with
  | nil => simp at h
  | cons x t =>
    cases t with
    | nil => simp at h
    | cons y t' =>
      rw [consHead, lastPiece_cons (c :: x) (y :: t') (by simp),
        lastPiece_cons x (y :: t') (by simp)]

theorem lastPiece_after_sep (sep : Char) (pre suf : List Char) :
    lastPiece (pySplit sep (pre ++ sep :: suf)) = lastPiece (pySplit sep suf) := by
  induction pre with
  | nil =>
    simp only [List.nil_append, pySplit, if_pos rfl]
    exact lastPiece_cons [] _ (pySplit_ne_nil sep suf)
  | cons c pre ih =>
    have hmem : sep ∈ pre ++ sep :: suf := by simp
    by_cases hc : c = sep
    · rw [List.cons_append, pySplit, if_pos hc, lastPiece_cons [] _ (pySplit_ne_nil sep _), ih]
    · rw [List.cons_append, pySplit, if_neg hc,
        lastPiece_consHead c _ (pySplit_length_two sep _ hmem), ih]

/-- Claim C8: for every path containing a suffix separator, `_file_type`
returns the suffix exactly as written after the last dot, without
consulting the sniffed content media type (extension precedence, no case
normalization); only for a dotless path does it return the subtype portion
(the piece after the last slash) of the sniffed media type. -/
theorem c8_extension_precedence (path sniff : String) :
    ('.' ∈ path.data → ∀ sniff2 : String, file_type path sniff = file_type path sniff2) ∧
    (∀ pre suf : List Char, path.data = pre ++ '.' :: suf → '.' ∉ suf →
      file_type path sniff = suf.asString) ∧
    ('.' ∉ path.data → ∀ mt st : List Char, sniff.data = mt ++ '/' :: st → '/' ∉ st →
      file_type path sniff = st.asString) := by
  refine ⟨fun h sniff2 => ?_, fun pre suf hsplit hns => ?_, fun h mt st hsplit hns => ?_⟩
  · simp [file_type, h]
  · have hmem : '.' ∈ path.data := by rw [hsplit]; simp
    rw [file_type, if_pos hmem, hsplit, lastPiece_after_sep, pySplit_no_sep '.' suf hns]
    rfl
  · rw [file_type, if_neg h, hsplit, lastPiece_after_sep, pySplit_no_sep '/' st hns]
    rfl

/-- Witness for C8 at a concrete path with an extension (sniff ignored,
suffix returned verbatim) and a concrete extensionless path (sniffed
subtype returned). -/
theorem c8_extension_precedence_witness :
    file_type "sample.txt" "application/x-hdf" = "txt" ∧
    file_type "sample" "application/x-hdf" = "x-hdf" := by
  constructor
  · have h := (c8_extension_precedence "sample.txt" "application/x-hdf").2.1
      "sample".data "txt".data (by decide) (by decide)
    rw [h]; decide
  · have h := (c8_extension_precedence "sample" "application/x-hdf").2.2
      (by decide) "application".data "x-hdf".data (by decide) (by decide)
    rw [h]; decide

/-! Claim C9: flattening of stored h5 channel datasets. -/

theorem foldl_append_one (sub a0 : List Int) :
    sub.foldl (fun a x => a ++ [x]) a0 = a0 ++ sub := by
  induction sub generalizing a0 with
  | nil => simp
  | cons x rest ih => simp [List.foldl, ih]

theorem naiveFlatten_eq_flatten (blocks : List (List Int)) :
    naiveFlatten blocks = blocks.flatten := by
  suffices h : ∀ acc, blocks.foldl (fun acc sub => sub.foldl (fun a x => a ++ [x]) acc) acc
      = acc ++ blocks.flatten by
    simpa [naiveFlatten] using h []
  induction blocks with
  | nil => intro acc; simp
  | cons b rest ih =>
    intro acc
    rw [List.foldl_cons, foldl_append_one, ih, List.flatten_cons, List.append_assoc]

/-- Claim C9 (amended): for every stored raw-channel dataset with at least
one row, the extractor's concatenation-based flattening
(`numpy.concatenate` over the list of rows) yields exactly the linear
sample sequence of the naive nested row/element iteration.  On an empty
stored dataset the two differ: concatenation raises `ValueError` while the
naive iteration yields the empty sequence. -/
theorem c9_flatten_equiv (blocks : List (List Int)) (h : blocks ≠ []) :
    npConcatenate blocks = .ok (naiveFlatten blocks) := by
  cases blocks with
  | nil => exact absurd rfl h
  | cons b rest => rw [naiveFlatten_eq_flatten]; rfl

/-- Counterexample to claim C9 as stated: the two flattening definitions
are not equal on every stored dataset — on the empty dataset the
concatenation raises `ValueError` (so `_load_h5` fails on such a channel)
while the naive nested iteration yields the empty sequence. -/
theorem c9_flatten_equiv_cex :
    npConcatenate [] = .error .valueError ∧
    naiveFlatten [] = [] ∧
    load_h5 h5EmptyFile ["AA:BB"] [[1]] = .error .valueError :=
  ⟨rfl, rfl, by decide⟩

/-- Witness for C9 (amended) at a concrete two-row blocked dataset. -/
theorem c9_flatten_equiv_witness :
    npConcatenate [[1, 2], [3]] = .ok (naiveFlatten [[1, 2], [3]]) :=
  c9_flatten_equiv [[1, 2], [3]] (by decide)

/-! Claim C3: the clinical (edf / octet-stream) format. -/

/-- Claim C3 (amended): for every file whose detected format tag is the
clinical one, header parsing always fails — `read_header` and `load` never
return a header or dataset for it — but the failure is the generic
unsupported-format `RuntimeError` of `read_header`'s fallthrough, not a
distinct not-implemented-in-this-version signal: `load`'s dedicated
not-available `RuntimeWarning` branch is unreachable because `read_header`
fails first. -/
theorem c3_edf_always_fails (f : File)
    (h : file_type f.path f.sniff ∈ edfTags) :
    read_header f = .error (.runtimeError unsupportedFormatMsg) ∧
    load f .none .none = .error (.runtimeError unsupportedFormatMsg) := by
  have hft : file_type f.path f.sniff = "edf" ∨ file_type f.path f.sniff = "octet-stream" := by
    simpa [edfTags] using h
  have h1 : bmem (file_type f.path f.sniff) txtTags = false := by
    rcases hft with h' | h' <;> rw [h'] <;> decide
  have h2 : bmem (file_type f.path f.sniff) h5Tags = false := by
    rcases hft with h' | h' <;> rw [h'] <;> decide
  have hrh : read_header f = .error (.runtimeError unsupportedFormatMsg) := by
    rw [read_header]
    simp [h1, h2]
  refine ⟨hrh, ?_⟩
  rw [load]
  simp [check_shape_and_type, hrh]

/-- Counterexample to claim C3 as stated: at a concrete edf-extension file
the failure of `read_header` (and hence of `load`) is the generic
unsupported-format error, not the distinct not-implemented-in-this-version
warning that the claim requires. -/
theorem c3_edf_always_fails_cex :
    read_header edfExampleFile = .error (.runtimeError unsupportedFormatMsg) ∧
    load edfExampleFile .none .none = .error (.runtimeError unsupportedFormatMsg) ∧
    PyErr.runtimeError unsupportedFormatMsg ≠ PyErr.runtimeWarning edfNotAvailableMsg :=
  ⟨by decide, by decide, by decide⟩

/-- Witness for C3 (amended) at the concrete edf-extension file. -/
theorem c3_edf_always_fails_witness :
    read_header edfExampleFile = .error (.runtimeError unsupportedFormatMsg) ∧
    load edfExampleFile .none .none = .error (.runtimeError unsupportedFormatMsg) :=
  c3_edf_always_fails edfExampleFile (by decide)

/-! Claim C2: shape mismatch of devices and channels. -/

/-- Claim C2 (amended): for every devices list and channels list, `load`
fails with the shape selection error — for every file, hence before any
file data is read — whenever the number of list-typed elements of channels
differs from the number of devices: the original's shape check compares
`len(devices)` with `sum(isinstance(i, list) for i in channels)`, the
sublist count, not with `len(channels)`. -/
theorem c2_shape_mismatch (f : File) (ds cs : List PyVal)
    (h : cs.countP pyIsList ≠ ds.length) :
    load f (.list cs) (.list ds) = .error (.runtimeError shapeMsg) := by
  have hs : check_shape_and_type (.list ds) (.list cs) = .error (.runtimeError shapeMsg) := by
    simp only [check_shape_and_type]
    rw [if_neg (fun hh => h hh.symm)]
  rw [load]
  simp [hs]
  intro hh
  exact PyVal.noConfusion hh

/-- Counterexample to claim C2 as stated: a devices list of length 2 with a
channels list of length 3 — two leading integer sublists and a trailing
bare integer — is accepted by the shape check (it counts only list-typed
elements), and `load` goes on to read the file and return a dataset
instead of failing before any file data is read. -/
theorem c2_shape_mismatch_cex :
    ([PyVal.list [.int 1], PyVal.list [.int 1], PyVal.int 99] : List PyVal).length = 3 ∧
    ([PyVal.str "AA:BB", PyVal.str "CC:DD"] : List PyVal).length = 2 ∧
    load txtExampleFile (.list [.list [.int 1], .list [.int 1], .int 99])
      (.list [.str "AA:BB", .str "CC:DD"])
    = .ok (some [("AA:BB", [("CH1", .vec [10, 20])]),
                 ("CC:DD", [("CH1", .vec [1000, 2000])])]) :=
  ⟨rfl, rfl, by decide⟩

/-- Witness for C2 (amended): one device with an empty channels list (zero
sublists) fails with the shape error on the concrete text file. -/
theorem c2_shape_mismatch_witness :
    load txtExampleFile (.list []) (.list [.str "AA:BB"]) = .error (.runtimeError shapeMsg) :=
  c2_shape_mismatch txtExampleFile [.str "AA:BB"] [] (by decide)

/-! Lemmas about the text-header standardization loop. -/

theorem buildCLAux_pres (colNbr : Nat) (d : RawTxtDevice) :
    ∀ (chans : List Int) (idx : Nat) (acc cl : List (Int × Locator)),
      buildCLAux colNbr d chans idx acc = .ok cl →
      ∀ (key : Int) (v : Locator), dictLookup acc key = some v → key ∉ chans →
        dictLookup cl key = some v := by
  intro chans
  induction chans with
  | nil =>
    intro idx acc cl h key v hl _
    simp only [buildCLAux] at h
    cases h
    exact hl
  | cons chn rest ih =>
    intro idx acc cl h key v hl hk
    simp only [buildCLAux] at h
    cases hlbl : d.label.get? idx with
    | none => simp only [hlbl] at h; cases h
    | some lbl =>
      simp only [hlbl] at h
      cases hw : npWhereFirst lbl d.column with
      | none => simp only [hw] at h; cases h
      | some j =>
        simp only [hw] at h
        have hkey : key ≠ chn := fun hh => hk (hh ▸ List.mem_cons_self chn rest)
        have hrest : key ∉ rest := fun hh => hk (List.mem_cons_of_mem chn hh)
        exact ih (idx + 1) _ cl h key v
          (by rw [dictLookup_insert_ne _ _ _ _ hkey]; exact hl) hrest

theorem buildCLAux_pos (colNbr : Nat) (d : RawTxtDevice) :
    ∀ (chans : List Int) (idx : Nat) (acc cl : List (Int × Locator)),
      buildCLAux colNbr d chans idx acc = .ok cl →
      chans.Nodup →
      ∀ (k : Nat) (chn : Int), chans.get? k = some chn →
        dictLookup cl chn =
          (d.label.get? (idx + k)).bind (fun lbl =>
            (npWhereFirst lbl d.column).map (fun j => Locator.col (colNbr + j))) := by
  intro chans
  induction chans with
  | nil =>
    intro idx acc cl _ _ k chn hc
    simp at hc
  | cons chn0 rest ih =>
    intro idx acc cl h hnd k chn hc
    simp only [buildCLAux] at h
    cases hlbl : d.label.get? idx with
    | none => simp only [hlbl] at h; cases h
    | some lbl =>
      simp only [hlbl] at h
      cases hw : npWhereFirst lbl d.column with
      | none => simp only [hw] at h; cases h
      | some j =>
        simp only [hw] at h
        cases k with
        | zero =>
          have hch : chn = chn0 := by simpa using hc.symm
          subst hch
          have hnin : chn ∉ rest := (List.nodup_cons.mp hnd).1
          have := buildCLAux_pres colNbr d rest (idx + 1) _ cl h chn (.col (colNbr + j))
            (dictLookup_insert_self _ _ _) hnin
          rw [this, Nat.add_zero, hlbl]
          simp [hw]
        | succ k' =>
          have hc' : rest.get? k' = some chn := by simpa using hc
          have := ih (idx + 1) _ cl h (List.nodup_cons.mp hnd).2 k' chn hc'
          rw [this]
          have harith : idx + 1 + k' = idx + (k' + 1) := by omega
          rw [harith]

theorem buildCLAux_keys (colNbr : Nat) (d : RawTxtDevice) :
    ∀ (chans : List Int) (idx : Nat) (acc cl : List (Int × Locator)),
      buildCLAux colNbr d chans idx acc = .ok cl →
      ∀ c : Int, (dictLookup cl c).isSome = true ↔
        ((dictLookup acc c).isSome = true ∨ c ∈ chans) := by
  intro chans
  induction chans with
  | nil =>
    intro idx acc cl h c
    simp only [buildCLAux] at h
    cases h
    simp
  | cons chn0 rest ih =>
    intro idx acc cl h c
    simp only [buildCLAux] at h
    cases hlbl : d.label.get? idx with
    | none => simp only [hlbl] at h; cases h
    | some lbl =>
      simp only [hlbl] at h
      cases hw : npWhereFirst lbl d.column with
      | none => simp only [hw] at h; cases h
      | some j =>
        simp only [hw] at h
        have := ih (idx + 1) _ cl h c
        rw [this]
        by_cases hcc : c = chn0
        · subst hcc
          rw [dictLookup_insert_self]
          simp
        · rw [dictLookup_insert_ne _ _ _ _ hcc]
          simp [List.mem_cons, hcc]

theorem stdTextHeaderAux_mem (raws : List (String × RawTxtDevice)) :
    ∀ (colNbr : Nat) (hdr : Header), stdTextHeaderAux colNbr raws = .ok hdr →
      ∀ (mac : String) (sd : StdDevice), (mac, sd) ∈ hdr →
        ∀ c : Int, (dictLookup sd.columnLabels c).isSome = true ↔ c ∈ sd.channels := by
  induction raws with
  | nil =>
    intro colNbr hdr h mac sd hm c
    simp only [stdTextHeaderAux] at h
    cases h
    simp at hm
  | cons p rest ih =>
    intro colNbr hdr h mac sd hm c
    obtain ⟨mac0, d⟩ := p
    simp only [stdTextHeaderAux] at h
    cases hsd : stdTextDevice colNbr d with
    | error e => simp only [hsd] at h; cases h
    | ok sd0 =>
      simp only [hsd] at h
      cases hrest : stdTextHeaderAux (colNbr + d.column.length) rest with
      | error e => simp only [hrest] at h; cases h
      | ok h' =>
        simp only [hrest] at h
        cases h
        rcases List.mem_cons.mp hm with hhead | htail
        · have hpair : mac0 = mac ∧ sd0 = sd := by
            constructor <;> [exact congrArg Prod.fst hhead.symm; exact congrArg Prod.snd hhead.symm]
          obtain ⟨_, hsd0⟩ := hpair
          subst hsd0
          simp only [stdTextDevice] at hsd
          cases hcl : buildCLAux colNbr d d.channels 0 [] with
          | error e => simp only [hcl] at hsd; cases hsd
          | ok cl =>
            simp only [hcl] at hsd
            cases hsd
            have := buildCLAux_keys colNbr d d.channels 0 [] cl hcl c
            simpa [dictLookup] using this
        · exact ih (colNbr + d.column.length) h' hrest mac sd htail c

/-! Lemmas about the h5-header standardization loop. -/

theorem stdH5Aux_keys (g : H5Group) :
    ∀ (chans : List Int) (cl : List (Int × Locator)) (sens : List String)
      (out : List (Int × Locator) × List String),
      stdH5Aux g chans cl sens = .ok out →
      ∀ c : Int, (dictLookup out.1 c).isSome = true ↔
        ((dictLookup cl c).isSome = true ∨ c ∈ chans) := by
  intro chans
  induction chans with
  | nil =>
    intro cl sens out h c
    simp only [stdH5Aux] at h
    cases h
    simp
  | cons chn0 rest ih =>
    intro cl sens out h c
    simp only [stdH5Aux] at h
    cases hch : dictLookup g.raw ("channel_" ++ toString chn0) with
    | none => simp only [hch] at h; cases h
    | some ch =>
      simp only [hch] at h
      have := ih _ _ out h c
      rw [this]
      by_cases hcc : c = chn0
      · subst hcc
        rw [dictLookup_insert_self]
        simp
      · rw [dictLookup_insert_ne _ _ _ _ hcc]
        simp [List.mem_cons, hcc]

theorem stdH5Header_mem (groups : List (String × H5Group)) :
    ∀ (hdr : Header), stdH5Header groups = .ok hdr →
      ∀ (mac : String) (sd : StdDevice), (mac, sd) ∈ hdr →
        ∀ c : Int, (dictLookup sd.columnLabels c).isSome = true ↔ c ∈ sd.channels := by
  induction groups with
  | nil =>
    intro hdr h mac sd hm c
    simp only [stdH5Header] at h
    cases h
    simp at hm
  | cons p rest ih =>
    intro hdr h mac sd hm c
    obtain ⟨mac0, g⟩ := p
    simp only [stdH5Header] at h
    cases hsd : stdH5Device g with
    | error e => simp only [hsd] at h; cases h
    | ok sd0 =>
      simp only [hsd] at h
      cases hrest : stdH5Header rest with
      | error e => simp only [hrest] at h; cases h
      | ok h' =>
        simp only [hrest] at h
        cases h
        rcases List.mem_cons.mp hm with hhead | htail
        · have hsd0 : sd0 = sd := congrArg Prod.snd hhead.symm
          subst hsd0
          simp only [stdH5Device] at hsd
          cases haux : stdH5Aux g g.channels [] [] with
          | error e => simp only [haux] at hsd; cases hsd
          | ok out =>
            simp only [haux] at hsd
            cases hsd
            have := stdH5Aux_keys g g.channels [] [] out haux c
            simpa [dictLookup] using this
        · exact ih h' hrest mac sd htail c

/-! Claim C5: column-label keys are exactly the channel set. -/

/-- Claim C5: for every device header produced by `read_header` — through
either the text parser or the hierarchical-binary parser — the key set of
`column labels` is exactly the device's channel set: a channel id has an
entry if and only if it is one of the device's channels. -/
theorem c5_column_labels_keys (f : File) (hdr : Header) (h : read_header f = .ok hdr)
    (mac : String) (sd : StdDevice) (hm : (mac, sd) ∈ hdr) (c : Int) :
    (dictLookup sd.columnLabels c).isSome = true ↔ c ∈ sd.channels := by
  rw [read_header] at h
  split at h
  · cases htc : f.txtContent with
    | none => simp only [htc] at h; cases h
    | some t =>
      simp only [htc] at h
      exact stdTextHeaderAux_mem t.rawHeader 0 hdr h mac sd hm c
  · split at h
    · cases hhc : f.h5Content with
      | none => simp only [hhc] at h; cases h
      | some hc =>
        simp only [hhc] at h
        exact stdH5Header_mem hc.groups hdr h mac sd hm c
    · cases h

/-- Witness for C5: channel 2 of the text example's first device is in the
channel set because its column-label entry exists, by the parsed header. -/
theorem c5_column_labels_keys_witness : 2 ∈ txtStdAA.channels :=
  (c5_column_labels_keys txtExampleFile txtHdr (by decide) "AA:BB" txtStdAA
    (by decide) 2).mp (by decide)

/-! Claim C4: the running column offset of the text parser. -/

theorem offsetSum_zero (raws : List (String × RawTxtDevice)) : offsetSum raws 0 = 0 := by
  simp [offsetSum]

theorem offsetSum_cons (p : String × RawTxtDevice) (rest : List (String × RawTxtDevice))
    (i : Nat) : offsetSum (p :: rest) (i + 1) = p.2.column.length + offsetSum rest i := by
  simp [offsetSum]

theorem stdTextHeaderAux_pos (raws : List (String × RawTxtDevice)) :
    ∀ (colNbr : Nat) (hdr : Header), stdTextHeaderAux colNbr raws = .ok hdr →
      ∀ (i : Nat) (mac : String) (d : RawTxtDevice), raws.get? i = some (mac, d) →
        d.channels.Nodup →
        ∀ (k : Nat) (chn : Int), d.channels.get? k = some chn →
          (hdr.get? i).bind (fun p => dictLookup p.2.columnLabels chn) =
            (d.label.get? k).bind (fun lbl =>
              (npWhereFirst lbl d.column).map
                (fun j => Locator.col (colNbr + offsetSum raws i + j))) := by
  induction raws with
  | nil =>
    intro colNbr hdr _ i mac d hr
    simp at hr
  | cons p rest ih =>
    intro colNbr hdr h i mac d hr hnd k chn hc
    obtain ⟨mac0, d0⟩ := p
    simp only [stdTextHeaderAux] at h
    cases hsd : stdTextDevice colNbr d0 with
    | error e => simp only [hsd] at h; cases h
    | ok sd0 =>
      simp only [hsd] at h
      cases hrest : stdTextHeaderAux (colNbr + d0.column.length) rest with
      | error e => simp only [hrest] at h; cases h
      | ok h' =>
        simp only [hrest] at h
        cases h
        cases i with
        | zero =>
          have hpair : mac0 = mac ∧ d0 = d := by
            have := hr
            simp only [List.get?] at this
            cases this
            exact ⟨rfl, rfl⟩
          obtain ⟨_, hd0⟩ := hpair
          subst hd0
          simp only [stdTextDevice] at hsd
          cases hcl : buildCLAux colNbr d0 d0.channels 0 [] with
          | error e => simp only [hcl] at hsd; cases hsd
          | ok cl =>
            simp only [hcl] at hsd
            cases hsd
            have := buildCLAux_pos colNbr d0 d0.channels 0 [] cl hcl hnd k chn hc
            simp only [List.get?, Option.bind_some, offsetSum_zero, Nat.add_zero]
            simpa using this
        | succ i' =>
          have hr' : rest.get? i' = some (mac, d) := by simpa using hr
          have := ih (colNbr + d0.column.length) h' hrest i' mac d hr' hnd k chn hc
          simp only [List.get?]
          rw [this, offsetSum_cons]
          have harith : colNbr + d0.column.length + offsetSum rest i'
              = colNbr + (d0.column.length + offsetSum rest i') := by omega
          rw [harith]

/-- Claim C4: in the text-format header parser, the column-label value of
the k-th channel of the i-th device (in file order) is the sum of the raw
column counts of all previously processed devices plus the position of
that channel's label within the device's own raw column list — the mapping
of the fold that carries the accumulator `col_nbr` over the ordered device
list. -/
theorem c4_running_offset (raws : List (String × RawTxtDevice)) (hdr : Header)
    (h : stdTextHeaderAux 0 raws = .ok hdr) (i : Nat) (mac : String) (d : RawTxtDevice)
    (hr : raws.get? i = some (mac, d)) (hnd : d.channels.Nodup)
    (k : Nat) (chn : Int) (hc : d.channels.get? k = some chn) :
    (hdr.get? i).bind (fun p => dictLookup p.2.columnLabels chn) =
      (d.label.get? k).bind (fun lbl =>
        (npWhereFirst lbl d.column).map (fun j => Locator.col (offsetSum raws i + j))) := by
  have := stdTextHeaderAux_pos raws 0 hdr h i mac d hr hnd k chn hc
  simpa using this

/-- Witness for C4 at the second device of the text example: its channel 1
resolves to offset 4 (the first device's four raw columns) plus local
label position 1. -/
theorem c4_running_offset_witness :
    (txtHdr.get? 1).bind (fun p => dictLookup p.2.columnLabels 1) =
      (txtRawCC.label.get? 0).bind (fun lbl =>
        (npWhereFirst lbl txtRawCC.column).map
          (fun j => Locator.col (offsetSum [("AA:BB", txtRawAA), ("CC:DD", txtRawCC)] 1 + j))) :=
  c4_running_offset [("AA:BB", txtRawAA), ("CC:DD", txtRawCC)] txtHdr (by decide)
    1 "CC:DD" txtRawCC (by decide) (by decide) 0 1 (by decide)

/-! Further dictionary lemmas. -/

theorem dictInsert_fresh {α β : Type} [DecidableEq α] (l : List (α × β)) (k : α) (v : β)
    (h : dictLookup l k = Option.none) : dictInsert l k v = l ++ [(k, v)] := by
  induction l with
  | nil => simp [dictInsert]
  | cons p rest ih =>
    by_cases hp : p.1 = k
    · rw [dictLookup, if_pos hp] at h
      cases h
    · rw [dictLookup, if_neg hp] at h
      simp [dictInsert, hp, ih h]

theorem dictLookup_append_none {α β : Type} [DecidableEq α] (l1 l2 : List (α × β)) (k : α)
    (h : dictLookup l1 k = Option.none) : dictLookup (l1 ++ l2) k = dictLookup l2 k := by
  induction l1 with
  | nil => simp
  | cons p rest ih =>
    by_cases hp : p.1 = k
    · rw [dictLookup, if_pos hp] at h
      cases h
    · rw [dictLookup, if_neg hp] at h
      rw [List.cons_append, dictLookup, if_neg hp]
      exact ih h

theorem dictLookup_self_of_nodup {α β : Type} [DecidableEq α] (l : List (α × β))
    (hnd : (dictKeys l).Nodup) : ∀ p ∈ l, dictLookup l p.1 = some p.2 := by
  induction l with
  | nil => intro p hp; simp at hp
  | cons q rest ih =>
    intro p hp
    have hq : q.1 ∉ dictKeys rest := by
      have := hnd
      rw [dictKeys, List.map_cons, List.nodup_cons] at this
      exact this.1
    have hnd' : (dictKeys rest).Nodup := by
      have := hnd
      rw [dictKeys, List.map_cons, List.nodup_cons] at this
      exact this.2
    rcases List.mem_cons.mp hp with hh | ht
    · subst hh
      rw [dictLookup, if_pos rfl]
    · have hpk : p.1 ∈ dictKeys rest := List.mem_map_of_mem (fun r => r.1) ht
      have hne : q.1 ≠ p.1 := fun hh => hq (hh ▸ hpk)
      rw [dictLookup, if_neg hne]
      exact ih hnd' p ht

/-! Forward lemmas about the validator loops. -/

theorem devLoop_map_self (dl : List String) :
    ∀ ds : List String, (∀ s ∈ ds, s ∈ dl) → devLoop dl (ds.map PyVal.str) = .ok ds := by
  intro ds
  induction ds with
  | nil => intro _; rfl
  | cons s rest ih =>
    intro hmem
    have hs : s ∈ dl := hmem s (List.mem_cons_self s rest)
    have hrest : ∀ x ∈ rest, x ∈ dl := fun x hx => hmem x (List.mem_cons_of_mem s hx)
    simp only [List.map_cons, devLoop, (bmem_iff s dl).mpr hs, if_pos, ih hrest]

theorem devLoop_ok_mem (dl : List String) :
    ∀ (vs : List PyVal) (out : List String), devLoop dl vs = .ok out →
      ∀ v ∈ vs, ∃ s, v = PyVal.str s ∧ s ∈ dl := by
  intro vs
  induction vs with
  | nil => intro out _ v hv; simp at hv
  | cons v0 rest ih =>
    intro out h v hv
    cases v0 with
    | str s =>
      rw [devLoop] at h
      by_cases hs : bmem s dl = true
      · rw [if_pos hs] at h
        cases hrest : devLoop dl rest with
        | error e => rw [hrest] at h; cases h
        | ok out' =>
          rw [hrest] at h
          rcases List.mem_cons.mp hv with hh | ht
          · exact ⟨s, hh, (bmem_iff s dl).mp hs⟩
          · exact ih out' hrest v ht
      · rw [if_neg hs] at h
        cases h
    | none => simp [devLoop] at h
    | int i => simp [devLoop] at h
    | list xs => simp [devLoop] at h

theorem availLoop_map (header : Header) :
    ∀ (ds : List String) (acc : List (String × List Int)),
      (∀ s ∈ ds, (dictLookup header s).isSome = true) →
      (∀ s ∈ ds, dictLookup acc s = Option.none) →
      ds.Nodup →
      availLoop header (ds.map PyVal.str) acc
        = .ok (acc ++ ds.map (fun s =>
            (s, dictKeys ((dictLookup header s).getD ⟨[], [], []⟩).columnLabels))) := by
  intro ds
  induction ds with
  | nil => intro acc _ _ _; simp [availLoop]
  | cons s rest ih =>
    intro acc hlook hfresh hnd
    have hs : (dictLookup header s).isSome = true := hlook s (List.mem_cons_self s rest)
    cases hdev : dictLookup header s with
    | none => rw [hdev] at hs; cases hs
    | some dev =>
      have hins : dictInsert acc s (dictKeys dev.columnLabels)
          = acc ++ [(s, dictKeys dev.columnLabels)] :=
        dictInsert_fresh acc s _ (hfresh s (List.mem_cons_self s rest))
      have hnotin : s ∉ rest := (List.nodup_cons.mp hnd).1
      have hfresh' : ∀ x ∈ rest, dictLookup (acc ++ [(s, dictKeys dev.columnLabels)]) x
          = Option.none := by
        intro x hx
        rw [dictLookup_append_none acc _ x (hfresh x (List.mem_cons_of_mem s hx))]
        have hxs : s ≠ x := fun hh => hnotin (hh ▸ hx)
        simp [dictLookup, hxs]
      have := ih (acc ++ [(s, dictKeys dev.columnLabels)])
        (fun x hx => hlook x (List.mem_cons_of_mem s hx)) hfresh'
        (List.nodup_cons.mp hnd).2
      simp only [List.map_cons, availLoop, hdev, hins, this]
      rw [List.append_assoc]
      simp [hdev]

theorem chnLoop_none (avail : List (String × List Int)) :
    ∀ i : Nat, chnLoop .none avail i = .ok (avail.map (fun p => p.2)) := by
  induction avail with
  | nil => intro i; rfl
  | cons p rest ih =>
    intro i
    obtain ⟨dev, av⟩ := p
    simp [chnLoop, pyIsNone, ih (i + 1)]

theorem filterMap_toIntOpt_map (l : List Int) :
    (l.map PyVal.int).filterMap toIntOpt = l := by
  induction l with
  | nil => rfl
  | cons x xs ih => simp only [List.map_cons, List.filterMap_cons, toIntOpt, ih]

theorem chnLoop_self (avail : List (String × List Int)) :
    ∀ (i : Nat) (subs : List PyVal),
      (∀ (j : Nat) (p : String × List Int), avail.get? j = some p →
        subs.get? (i + j) = some (.list (p.2.map PyVal.int))) →
      chnLoop (.list subs) avail i = .ok (avail.map (fun p => p.2)) := by
  induction avail with
  | nil => intro i subs _; rfl
  | cons p rest ih =>
    intro i subs hpos
    obtain ⟨dev, av⟩ := p
    have h0 : subs.get? i = some (.list (av.map PyVal.int)) := by
      have := hpos 0 (dev, av) rfl
      simpa using this
    have hall : (av.map PyVal.int).all (fun v => pyMemInt v av) = true := by
      rw [List.all_eq_true]
      intro v hv
      rcases List.mem_map.mp hv with ⟨c, hc, hvc⟩
      subst hvc
      exact (bmem_iff c av).mpr hc
    have hrec := ih (i + 1) subs (by
      intro j p hj
      have := hpos (j + 1) p (by simpa using hj)
      have harith : i + (j + 1) = i + 1 + j := by omega
      rw [harith] at this
      exact this)
    have hfm : (av.map PyVal.int).filterMap toIntOpt = av := filterMap_toIntOpt_map av
    have hidx : pyIndex (.list subs) i = .ok (.list (av.map PyVal.int)) := by
      rw [pyIndex, h0]
    rw [chnLoop, if_neg (by simp [pyIsNone])]
    simp only [hidx, pyIter, hall, if_pos, hrec, hfm, List.map_cons]

theorem chnLoop_ok_mem (subs : List PyVal) :
    ∀ (avail : List (String × List Int)) (i : Nat) (out : List (List Int)),
      chnLoop (.list subs) avail i = .ok out →
      ∀ (j : Nat) (p : String × List Int), avail.get? j = some p →
        ∀ su elems, subs.get? (i + j) = some su → pyIter su = some elems →
          ∀ v ∈ elems, pyMemInt v p.2 = true := by
  intro avail
  induction avail with
  | nil => intro i out _ j p hj; simp at hj
  | cons q rest ih =>
    intro i out h j p hj su elems hsu hit v hv
    obtain ⟨dev, av⟩ := q
    rw [chnLoop] at h
    rw [if_neg (by simp [pyIsNone])] at h
    cases hidx : pyIndex (.list subs) i with
    | error e => simp only [hidx] at h; cases h
    | ok su0 =>
      simp only [hidx] at h
      cases hit0 : pyIter su0 with
      | none => simp only [hit0] at h; cases h
      | some elems0 =>
        simp only [hit0] at h
        by_cases hall : elems0.all (fun v => pyMemInt v av) = true
        · rw [if_pos hall] at h
          cases hrec : chnLoop (.list subs) rest (i + 1) with
          | error e => simp only [hrec] at h; cases h
          | ok out' =>
            simp only [hrec] at h
            cases j with
            | zero =>
              have hp : (dev, av) = p := by simpa using hj
              subst hp
              have hsu0 : pyIndex (.list subs) i = .ok su := by
                rw [pyIndex]
                have : subs.get? i = some su := by simpa using hsu
                rw [this]
              rw [hsu0] at hidx
              cases hidx
              rw [hit0] at hit
              cases hit
              exact (List.all_eq_true.mp hall) v hv
            | succ j' =>
              have hj' : rest.get? j' = some p := by simpa using hj
              have hsu' : subs.get? (i + 1 + j') = some su := by
                have harith : i + 1 + j' = i + (j' + 1) := by omega
                rw [harith]
                exact hsu
              exact ih (i + 1) out' hrec j' p hj' su elems hsu' hit v hv
        · rw [if_neg hall] at h
          cases h

theorem checkDevsLoop_ok (cs : List PyVal) :
    ∀ (ds : List String) (i : Nat),
      (∀ j : Nat, j < ds.length → ∃ l : List Int, cs.get? (i + j) = some (.list (l.map PyVal.int))) →
      checkDevsLoop cs (ds.map PyVal.str) i = .ok () := by
  intro ds
  induction ds with
  | nil => intro i _; rfl
  | cons s rest ih =>
    intro i hpos
    obtain ⟨l, hl⟩ := hpos 0 (by simp)
    rw [Nat.add_zero] at hl
    have hall : (l.map PyVal.int).all pyIsInt = true := by
      rw [List.all_eq_true]
      intro v hv
      rcases List.mem_map.mp hv with ⟨c, _, hvc⟩
      subst hvc
      rfl
    have hrec := ih (i + 1) (by
      intro j hj
      obtain ⟨l', hl'⟩ := hpos (j + 1) (by simpa using Nat.succ_lt_succ hj)
      refine ⟨l', ?_⟩
      have harith : i + 1 + j = i + (j + 1) := by omega
      rw [harith]
      exact hl')
    simp only [List.map_cons, checkDevsLoop, hl, pyIter, hall, if_pos, hrec]

theorem getD_lookup_map (hdr : Header) (hnd : (dictKeys hdr).Nodup) :
    (dictKeys hdr).map (fun s =>
        (s, dictKeys ((dictLookup hdr s).getD ⟨[], [], []⟩).columnLabels))
      = hdr.map (fun p => (p.1, dictKeys p.2.columnLabels)) := by
  rw [dictKeys, List.map_map]
  apply List.map_congr_left
  intro p hp
  simp only [Function.comp]
  rw [dictLookup_self_of_nodup hdr hnd p hp]
  rfl

/-! Claim C7: explicit full selection equals omitted selection. -/

/-- Claim C7: for every file whose header parses, loading with an explicit
device/channel selection equal to the full discovered device list and the
full per-device available-channel lists returns exactly the same result as
loading with devices and channels omitted (assuming, as a parsed dictionary
guarantees, that the device ids are pairwise distinct). -/
theorem c7_full_selection_roundtrip (f : File) (hdr : Header)
    (h : read_header f = .ok hdr) (hnd : (dictKeys hdr).Nodup) :
    load f (.list ((fullChannels hdr).map (fun l => PyVal.list (l.map PyVal.int))))
      (.list ((dictKeys hdr).map PyVal.str))
    = load f .none .none := by
  have hdev : devLoop (dictKeys hdr) ((dictKeys hdr).map PyVal.str) = .ok (dictKeys hdr) :=
    devLoop_map_self _ _ (fun s hs => hs)
  have hlook : ∀ s ∈ dictKeys hdr, (dictLookup hdr s).isSome = true := fun s hs =>
    (dictLookup_isSome_iff_mem_keys hdr s).mpr hs
  have havail : availLoop hdr ((dictKeys hdr).map PyVal.str) []
      = .ok (hdr.map (fun p => (p.1, dictKeys p.2.columnLabels))) := by
    rw [availLoop_map hdr (dictKeys hdr) [] hlook (fun s _ => rfl) hnd]
    rw [List.nil_append, getD_lookup_map hdr hnd]
  have hAV : (hdr.map (fun p => (p.1, dictKeys p.2.columnLabels))).map (fun p => p.2)
      = fullChannels hdr := by
    rw [List.map_map]
    rfl
  have hchnR : chnLoop PyVal.none (hdr.map (fun p => (p.1, dictKeys p.2.columnLabels))) 0
      = .ok (fullChannels hdr) := by
    rw [chnLoop_none, hAV]
  have hchnL : chnLoop (.list ((fullChannels hdr).map (fun l => PyVal.list (l.map PyVal.int))))
      (hdr.map (fun p => (p.1, dictKeys p.2.columnLabels))) 0 = .ok (fullChannels hdr) := by
    rw [chnLoop_self _ 0 _ ?hpos, hAV]
    case hpos =>
      intro j p hj
      rw [List.get?_map] at hj
      cases hq : hdr.get? j with
      | none => rw [hq] at hj; cases hj
      | some qd =>
        rw [hq] at hj
        have hp : (qd.1, dictKeys qd.2.columnLabels) = p := by simpa using hj
        subst hp
        rw [Nat.zero_add, List.get?_map, fullChannels, List.get?_map, hq]
        rfl
  have hlen : (((fullChannels hdr).map (fun l => PyVal.list (l.map PyVal.int))).countP pyIsList)
      = ((dictKeys hdr).map PyVal.str).length := by
    have hcount : ∀ ls : List (List Int),
        ((ls.map (fun l => PyVal.list (l.map PyVal.int))).countP pyIsList) = ls.length := by
      intro ls
      induction ls with
      | nil => rfl
      | cons x xs ih => simp [List.countP_cons, pyIsList, ih]
    rw [hcount]
    simp [fullChannels, dictKeys]
  have hshapeL : check_shape_and_type (.list ((dictKeys hdr).map PyVal.str))
      (.list ((fullChannels hdr).map (fun l => PyVal.list (l.map PyVal.int)))) = .ok () := by
    rw [check_shape_and_type, if_pos hlen.symm]
    apply checkDevsLoop_ok
    intro j hj
    have hj' : j < (fullChannels hdr).length := by
      simpa [fullChannels, dictKeys] using hj
    cases hq : (fullChannels hdr).get? j with
    | none =>
      rw [List.get?_eq_none] at hq
      omega
    | some l =>
      refine ⟨l, ?_⟩
      rw [Nat.zero_add, List.get?_map, hq]
      rfl
  have hshapeR : check_shape_and_type PyVal.none PyVal.none = .ok () := rfl
  rw [load, load]
  simp only [h, hshapeL, hshapeR, check_dev_type, available_channels, check_chn_type,
    hdev, havail, hchnL, hchnR]
  intro hh
  exact PyVal.noConfusion hh

/-- Witness for C7 at the concrete two-device text file: explicit full
selection and omitted selection load identically. -/
theorem c7_full_selection_roundtrip_witness :
    load txtExampleFile
      (.list ((fullChannels txtHdr).map (fun l => PyVal.list (l.map PyVal.int))))
      (.list ((dictKeys txtHdr).map PyVal.str))
    = load txtExampleFile .none .none :=
  c7_full_selection_roundtrip txtExampleFile txtHdr (by decide) (by decide)

/-! Claim C10: omitted devices with a flat channel list on a multi-device
file. -/

theorem chnLoop_flat_overflow (su : PyVal) (elems : List PyVal)
    (hit : pyIter su = some elems)
    (p0 q0 : String × List Int) (rest : List (String × List Int))
    (hall : elems.all (fun v => pyMemInt v p0.2) = true) :
    chnLoop (.list [su]) (p0 :: q0 :: rest) 0 = .error .indexError := by
  obtain ⟨dev0, av0⟩ := p0
  have hrec : chnLoop (.list [su]) (q0 :: rest) 1 = .error .indexError := by
    obtain ⟨dev1, av1⟩ := q0
    rw [chnLoop, if_neg (by simp [pyIsNone])]
    have hidx1 : pyIndex (.list [su]) 1 = .error .indexError := rfl
    simp only [hidx1]
  rw [chnLoop, if_neg (by simp [pyIsNone])]
  have hidx : pyIndex (.list [su]) 0 = .ok su := rfl
  simp only [hidx, hit, hall, if_pos, hrec]

/-- Claim C10: if `devices` is omitted while `channels` is a flat list of
integers, `load` succeeds only for a single-device file: the flat list is
wrapped into a one-element list, so on a file whose parsed header has two
or more devices the per-device channel membership check indexes that
wrapped list out of range, and — when the flat channels are all available
on the first device, so the membership check itself passes — `load` fails
with the raw out-of-range `IndexError` instead of a descriptive selection
error. -/
theorem c10_flat_channels_two_devices (f : File) (m0 : String) (d0 : StdDevice)
    (q : String × StdDevice) (restH : Header)
    (hh : read_header f = .ok ((m0, d0) :: q :: restH))
    (hnd : (dictKeys ((m0, d0) :: q :: restH)).Nodup)
    (cs : List PyVal)
    (hcs : ∀ v ∈ cs, ∃ c : Int, v = PyVal.int c ∧ c ∈ dictKeys d0.columnLabels) :
    load f (.list cs) .none = .error .indexError := by
  have hallint : isInstanceAllInt (.list cs) = true := by
    rw [isInstanceAllInt, List.all_eq_true]
    intro v hv
    obtain ⟨c, hvc, _⟩ := hcs v hv
    subst hvc
    rfl
  have hshape : check_shape_and_type PyVal.none (.list cs)
      = (if isInstanceAllInt (.list cs) = true then .ok ()
         else .error (.runtimeError typePairMsg)) := rfl
  rw [hallint, if_pos rfl] at hshape
  have hdl : dictKeys ((m0, d0) :: q :: restH) = m0 :: q.1 :: dictKeys restH := rfl
  have hdev : devLoop (dictKeys ((m0, d0) :: q :: restH))
      ((dictKeys ((m0, d0) :: q :: restH)).map PyVal.str)
      = .ok (dictKeys ((m0, d0) :: q :: restH)) :=
    devLoop_map_self _ _ (fun s hs => hs)
  have hlook : ∀ s ∈ dictKeys ((m0, d0) :: q :: restH),
      (dictLookup ((m0, d0) :: q :: restH) s).isSome = true := fun s hs =>
    (dictLookup_isSome_iff_mem_keys _ s).mpr hs
  have havail : availLoop ((m0, d0) :: q :: restH)
      ((dictKeys ((m0, d0) :: q :: restH)).map PyVal.str) []
      = .ok (((m0, d0) :: q :: restH).map (fun p => (p.1, dictKeys p.2.columnLabels))) := by
    rw [availLoop_map _ _ [] hlook (fun s _ => rfl) hnd]
    rw [List.nil_append, getD_lookup_map _ hnd]
  have hall : cs.all (fun v => pyMemInt v (dictKeys d0.columnLabels)) = true := by
    rw [List.all_eq_true]
    intro v hv
    obtain ⟨c, hvc, hmem⟩ := hcs v hv
    subst hvc
    exact (bmem_iff c _).mpr hmem
  have hchn : chnLoop (.list [.list cs])
      (((m0, d0) :: q :: restH).map (fun p => (p.1, dictKeys p.2.columnLabels))) 0
      = .error .indexError := by
    rw [List.map_cons, List.map_cons]
    exact chnLoop_flat_overflow (.list cs) cs rfl _ _ _ hall
  rw [load]
  simp only [hh, hshape, check_dev_type, available_channels, check_chn_type,
    hdev, havail, hchn]
  intro hcontra
  exact PyVal.noConfusion hcontra

/-- Witness for C10 at the concrete two-device text file with the flat
channel list `[1]` (channel 1 is available on the first device). -/
theorem c10_flat_channels_two_devices_witness :
    load txtExampleFile (.list [.int 1]) .none = .error .indexError :=
  c10_flat_channels_two_devices txtExampleFile "AA:BB" txtStdAA ("CC:DD", txtStdCC) []
    (by decide) (by decide) [.int 1]
    (fun v hv => by
      have hv1 : v = PyVal.int 1 := by simpa using hv
      exact ⟨1, hv1, by decide⟩)

/-! Claim C6: unknown device or channel ids abort the load. -/

/-- Claim C6: for every load call over a parsed header whose selection
(pairwise-distinct device-id strings and per-device integer channel lists)
names a device id not present in the header, or a channel id not among
that device's available channels (the `column labels` keys), no dataset —
not even a partial one — is produced: `load` never returns successfully. -/
theorem c6_unknown_selection (f : File) (hdr : Header) (h : read_header f = .ok hdr)
    (ds : List String) (css : List (List Int)) (hnd : ds.Nodup)
    (hbad : (∃ s ∈ ds, (dictLookup hdr s).isSome = false) ∨
            (∃ (i : Nat) (s : String) (dev : StdDevice) (cs : List Int) (c : Int),
              ds.get? i = some s ∧ dictLookup hdr s = some dev ∧ css.get? i = some cs ∧
              c ∈ cs ∧ (dictLookup dev.columnLabels c).isSome = false)) :
    exceptIsOk (load f (.list (css.map (fun l => PyVal.list (l.map PyVal.int))))
      (.list (ds.map PyVal.str))) = false := by
  cases hload : load f (.list (css.map (fun l => PyVal.list (l.map PyVal.int))))
      (.list (ds.map PyVal.str)) with
  | error e => rfl
  | ok r =>
    exfalso
    rw [load] at hload
    cases hs : check_shape_and_type (.list (ds.map PyVal.str))
        (.list (css.map (fun l => PyVal.list (l.map PyVal.int)))) with
    | error e => simp only [hs] at hload; cases hload
    | ok u =>
      simp only [hs, h] at hload
      cases hdev : check_dev_type (.list (ds.map PyVal.str)) (dictKeys hdr) with
      | error e => simp only [hdev] at hload; cases hload
      | ok dev_std =>
        simp only [hdev] at hload
        have hmemall : ∀ s ∈ ds, s ∈ dictKeys hdr := by
          intro s hs'
          have := devLoop_ok_mem (dictKeys hdr) (ds.map PyVal.str) dev_std hdev
            (.str s) (List.mem_map_of_mem PyVal.str hs')
          obtain ⟨s', hss', hmem⟩ := this
          cases hss'
          exact hmem
        rcases hbad with ⟨s, hsds, hfalse⟩ | ⟨i, s, dev, cs, c, hdsi, hdev', hcssi, hccs, hcl⟩
        · rw [(dictLookup_isSome_iff_mem_keys hdr s).mpr (hmemall s hsds)] at hfalse
          cases hfalse
        · have hlook : ∀ x ∈ ds, (dictLookup hdr x).isSome = true := fun x hx =>
            (dictLookup_isSome_iff_mem_keys hdr x).mpr (hmemall x hx)
          have havail : available_channels (.list (ds.map PyVal.str)) hdr
              = .ok (ds.map (fun x =>
                  (x, dictKeys ((dictLookup hdr x).getD ⟨[], [], []⟩).columnLabels))) := by
            rw [available_channels, availLoop_map hdr ds [] hlook (fun x _ => rfl) hnd,
              List.nil_append]
          simp only [havail] at hload
          cases hchn : chnLoop (.list (css.map (fun l => PyVal.list (l.map PyVal.int))))
              (ds.map (fun x =>
                (x, dictKeys ((dictLookup hdr x).getD ⟨[], [], []⟩).columnLabels))) 0 with
          | error e => simp only [check_chn_type, hchn] at hload; cases hload
          | ok out =>
            have hpj : (ds.map (fun x =>
                (x, dictKeys ((dictLookup hdr x).getD ⟨[], [], []⟩).columnLabels))).get? i
                = some (s, dictKeys dev.columnLabels) := by
              rw [List.get?_map, hdsi]
              simp [hdev']
            have hsub : (css.map (fun l => PyVal.list (l.map PyVal.int))).get? (0 + i)
                = some (.list (cs.map PyVal.int)) := by
              rw [Nat.zero_add, List.get?_map, hcssi]
              rfl
            have hmems := chnLoop_ok_mem _ _ 0 out hchn i
              (s, dictKeys dev.columnLabels) hpj (.list (cs.map PyVal.int))
              (cs.map PyVal.int) hsub rfl (.int c) (List.mem_map_of_mem PyVal.int hccs)
            rw [pyMemInt] at hmems
            have hcmem : c ∈ dictKeys dev.columnLabels := (bmem_iff c _).mp hmems
            rw [(dictLookup_isSome_iff_mem_keys dev.columnLabels c).mpr hcmem] at hcl
            cases hcl
    all_goals exact fun hcontra => PyVal.noConfusion hcontra

/-- Witness for C6: requesting the unknown device id "ZZ" on the concrete
two-device text file leaves `load` unsuccessful. -/
theorem c6_unknown_selection_witness :
    exceptIsOk (load txtExampleFile (.list [.list [.int 1]]) (.list [.str "ZZ"])) = false :=
  c6_unknown_selection txtExampleFile txtHdr (by decide) ["ZZ"] [[1]] (by decide)
    (Or.inl ⟨"ZZ", by decide, by decide⟩)

/-! Claim C1: what the text extractor stores under each channel key. -/

theorem resolveCols_cons (header : Header) (device : String) (chn0 : Int) (pre : List Int)
    (dev : StdDevice) (c : Nat)
    (hdev : dictLookup header device = some dev)
    (hcl : dictLookup dev.columnLabels chn0 = some (.col c)) :
    resolveCols header device (chn0 :: pre)
      = match resolveCols header device pre with
        | .error e => .error e
        | .ok cs => .ok (c :: cs) := by
  simp only [resolveCols, hdev, hcl]

theorem loadTxtChans_spec (matrix : List (List Int)) (header : Header) (device : String) :
    ∀ (chans : List Int) (columns : List Nat) (acc out : ChannelData),
      loadTxtChans matrix header device chans columns acc = .ok out →
      (chans.map chKey).Nodup →
      (∀ (key : String) (v : NpArray), dictLookup acc key = some v →
        key ∉ chans.map chKey → dictLookup out key = some v) ∧
      (∀ (k : Nat) (chn : Int), chans.get? k = some chn →
        dictLookup out (chKey chn) =
          exceptToOption ((resolveCols header device (chans.take (k + 1))).bind
            (fun nc => npLoadtxt matrix (columns ++ nc)))) := by
  intro chans
  induction chans with
  | nil =>
    intro columns acc out h _
    simp only [loadTxtChans] at h
    cases h
    refine ⟨fun key v hl _ => hl, fun k chn hc => ?_⟩
    simp at hc
  | cons chn0 rest ih =>
    intro columns acc out h hnd
    have hnin : chKey chn0 ∉ rest.map chKey := by
      have := hnd
      rw [List.map_cons, List.nodup_cons] at this
      exact this.1
    have hnd' : (rest.map chKey).Nodup := by
      have := hnd
      rw [List.map_cons, List.nodup_cons] at this
      exact this.2
    simp only [loadTxtChans] at h
    cases hdev : dictLookup header device with
    | none => simp only [hdev] at h; cases h
    | some dev =>
      simp only [hdev] at h
      cases hcl : dictLookup dev.columnLabels chn0 with
      | none => simp only [hcl] at h; cases h
      | some loc =>
        cases loc with
        | label s => simp only [hcl] at h; cases h
        | col c =>
          simp only [hcl] at h
          cases hld : npLoadtxt matrix (columns ++ [c]) with
          | error e => simp only [hld] at h; cases h
          | ok arr =>
            simp only [hld] at h
            obtain ⟨ihpres, ihpos⟩ := ih (columns ++ [c]) (dictInsert acc (chKey chn0) arr)
              out h hnd'
            constructor
            · intro key v hl hk
              have hkey : key ≠ chKey chn0 := fun hh =>
                hk (hh ▸ List.mem_cons_self (chKey chn0) (rest.map chKey))
              have hrest : key ∉ rest.map chKey := fun hh =>
                hk (List.mem_cons_of_mem _ hh)
              exact ihpres key v
                (by rw [dictLookup_insert_ne _ _ _ _ hkey]; exact hl) hrest
            · intro k chn hc
              cases k with
              | zero =>
                have hch : chn0 = chn := by simpa using hc
                subst hch
                have hout : dictLookup out (chKey chn0) = some arr :=
                  ihpres (chKey chn0) arr (dictLookup_insert_self _ _ _) hnin
                rw [hout, List.take_succ_cons, List.take_zero,
                  resolveCols_cons header device chn0 [] dev c hdev hcl]
                simp only [resolveCols, Except.bind, exceptToOption, hld]
              | succ k' =>
                have hc' : rest.get? k' = some chn := by simpa using hc
                have := ihpos k' chn hc'
                rw [this, List.take_succ_cons,
                  resolveCols_cons header device chn0 (rest.take (k' + 1)) dev c hdev hcl]
                cases hrc : resolveCols header device (rest.take (k' + 1)) with
                | error e => simp [Except.bind, exceptToOption]
                | ok nc =>
                  simp only [Except.bind, exceptToOption]
                  rw [List.append_assoc]
                  rfl

theorem loadTxtDevs_spec (matrix : List (List Int)) (header : Header) :
    ∀ (devs : List String) (chansList : List (List Int)) (acc out : Dataset),
      loadTxtDevs matrix header devs chansList acc = .ok out →
      devs.Nodup →
      (∀ (key : String) (v : ChannelData), dictLookup acc key = some v → key ∉ devs →
        dictLookup out key = some v) ∧
      (∀ (i : Nat) (device : String) (chans : List Int),
        devs.get? i = some device → chansList.get? i = some chans →
        ∃ chd, loadTxtChans matrix header device chans [] [] = .ok chd ∧
          dictLookup out device = some chd) := by
  intro devs
  induction devs with
  | nil =>
    intro chansList acc out h _
    simp only [loadTxtDevs] at h
    cases h
    refine ⟨fun key v hl _ => hl, fun i device chans hd => ?_⟩
    simp at hd
  | cons device0 restD ih =>
    intro chansList acc out h hnd
    cases chansList with
    | nil => simp only [loadTxtDevs] at h; cases h
    | cons chans0 restC =>
      simp only [loadTxtDevs] at h
      cases hch0 : loadTxtChans matrix header device0 chans0 [] [] with
      | error e => simp only [hch0] at h; cases h
      | ok chd0 =>
        simp only [hch0] at h
        have hnin : device0 ∉ restD := (List.nodup_cons.mp hnd).1
        obtain ⟨ihpres, ihpos⟩ := ih restC (dictInsert acc device0 chd0) out h
          (List.nodup_cons.mp hnd).2
        constructor
        · intro key v hl hk
          have hkey : key ≠ device0 := fun hh =>
            hk (hh ▸ List.mem_cons_self device0 restD)
          have hrest : key ∉ restD := fun hh => hk (List.mem_cons_of_mem _ hh)
          exact ihpres key v (by rw [dictLookup_insert_ne _ _ _ _ hkey]; exact hl) hrest
        · intro i device chans hd hc
          cases i with
          | zero =>
            have hdd : device0 = device := by simpa using hd
            subst hdd
            have hcc : chans0 = chans := by simpa using hc
            subst hcc
            exact ⟨chd0, hch0,
              ihpres device0 chd0 (dictLookup_insert_self _ _ _) hnin⟩
          | succ i' =>
            exact ihpos i' device chans (by simpa using hd) (by simpa using hc)

/-- Claim C1 (amended): for every successful text extraction, the output
maps each requested device and channel to key `"CH<c>"`, but the value
stored under the k-th requested channel of a device is the
`numpy.loadtxt` read of the accumulated `usecols` list — the resolved
columns of that device's first k requested channels, in request order —
because the extractor appends to `columns` across the channel loop.  Only
the first requested channel of each device holds exactly the single
data-matrix column located by its `column labels` entry.  (Devices and
per-device channel keys are assumed pairwise distinct, as in any
meaningful selection.) -/
theorem c1_txt_extractor (matrix : List (List Int)) (header : Header)
    (devices : List String) (channels : List (List Int)) (out : Dataset)
    (h : load_txt matrix devices channels header = .ok out)
    (hnd : devices.Nodup)
    (i : Nat) (device : String) (chans : List Int)
    (hd : devices.get? i = some device) (hc : channels.get? i = some chans)
    (hk : (chans.map chKey).Nodup)
    (k : Nat) (chn : Int) (hchn : chans.get? k = some chn) :
    (dictLookup out device).bind (fun chd => dictLookup chd (chKey chn)) =
      exceptToOption ((resolveCols header device (chans.take (k + 1))).bind
        (fun nc => npLoadtxt matrix nc)) := by
  obtain ⟨-, hpos⟩ := loadTxtDevs_spec matrix header devices channels [] out h hnd
  obtain ⟨chd, hchd, hlook⟩ := hpos i device chans hd hc
  obtain ⟨-, hcpos⟩ := loadTxtChans_spec matrix header device chans [] [] chd hchd hk
  rw [hlook, Option.some_bind, hcpos k chn hchn]
  simp

/-- Counterexample to claim C1 as stated: requesting channels 1 and 2 of
one device stores, under "CH2", the two-column matrix of both requested
channels' columns, not the single column (index 3, samples [100, 200])
that `column labels` locates for channel 2. -/
theorem c1_txt_extractor_cex :
    load_txt txtMatrix ["AA:BB"] [[1, 2]] txtHdr
      = .ok [("AA:BB", [("CH1", .vec [10, 20]), ("CH2", .mat [[10, 100], [20, 200]])])] ∧
    NpArray.mat [[10, 100], [20, 200]] ≠ NpArray.vec [100, 200] :=
  ⟨by decide, by decide⟩

/-- Witness for C1 (amended) at the concrete file: the value under "CH2"
(second requested channel) is the accumulated two-column read. -/
theorem c1_txt_extractor_witness :
    (dictLookup [("AA:BB", [("CH1", NpArray.vec [10, 20]),
        ("CH2", NpArray.mat [[10, 100], [20, 200]])])] "AA:BB").bind
      (fun chd => dictLookup chd (chKey 2)) =
    exceptToOption ((resolveCols txtHdr "AA:BB" ([1, 2].take (1 + 1))).bind
      (fun nc => npLoadtxt txtMatrix nc)) :=
  c1_txt_extractor txtMatrix txtHdr ["AA:BB"] [[1, 2]]
    [("AA:BB", [("CH1", NpArray.vec [10, 20]),
        ("CH2", NpArray.mat [[10, 100], [20, 200]])])]
    (by decide) (by decide) 0 "AA:BB" [1, 2] (by decide) (by decide) (by decide)
    1 2 (by decide)

end OpenSignals
